import Mathlib

/-!
# PowerPoint parser: `parsePPTX` and `encodeImageToBase64` (src/main.go)

A shallow embedding of the extraction pipeline of `src/main.go`.

* Go `string` values are Lean `String`s; Go `len(s)` is the number of bytes of
  the UTF-8 encoding, `String.utf8ByteSize` (texts and file names taken from a
  presentation are valid UTF-8).
* Go `[]byte` is `List Byte` with `Byte = Fin 256`.
* A Go call returning `(value, error)` is a pair `value × Option Error`; the
  source discards several of these errors and still uses the value, so the
  value is kept on the error path as well.
* The presentation library (`presentation.Open`, `Slides`, `Shapes`,
  `HasText`, `Text`, `Pictures`, `Data`, `FileName`) is external: a document
  is the data these calls return, and `Open` is a parameter.
* `ioutil.WriteFile` / `ioutil.ReadFile` act on an explicit file-system state.
* `fmt.Println` only writes to standard output and `defer ppt.Close()` only
  releases the document; neither influences a returned value and neither is
  modelled.
-/

set_option autoImplicit false

namespace PptxParser

/-! ## Data model -/

abbrev Error := String

abbrev Byte := Fin 256

/-- ImageData of src/main.go, lines 25-31. -/
structure ImageData where
  Src : String := ""
  Alt : String := ""
  Width : Int := 0
  Height : Int := 0
  Base64 : String := ""
  deriving DecidableEq, Repr

/-- SlideData of src/main.go, lines 15-22. A nil slice is the empty list. -/
structure SlideData where
  SlideNumber : Int := 0
  Title : String := ""
  Subheading : String := ""
  Paragraphs : List String := []
  Images : List ImageData := []
  SpeakerNotes : String := ""
  deriving DecidableEq, Repr

/-- A shape of a slide as the source observes it: the result of `HasText()` and
the pair returned by `Text()`. -/
structure Shape where
  hasText : Bool
  text : String × Option Error
  deriving DecidableEq, Repr

/-- A picture of a slide as the source observes it: the pair returned by
`Data()` and the result of `FileName()`. -/
structure Picture where
  data : List Byte × Option Error
  fileName : String
  deriving DecidableEq, Repr

/-- A slide: what `Shapes()` and `Pictures()` return, in the library's order. -/
structure Slide where
  shapes : List Shape
  pictures : List Picture
  deriving DecidableEq, Repr

/-- An opened presentation: what `Slides()` returns. -/
structure Presentation where
  slides : List Slide
  deriving DecidableEq, Repr

/-! ## File system -/

/-- State of the storage the pictures are written to: the files with their
contents (the first entry for a name is the current one), the names that cannot
be written and the names that cannot be read. -/
structure FS where
  files : List (String × List Byte) := []
  writeDenied : List String := []
  readDenied : List String := []
  deriving DecidableEq, Repr

/-- The call `ioutil.WriteFile(name, data, 0644)`: the new state and the error. -/
def writeFile (fs : FS) (name : String) (data : List Byte) : FS × Option Error :=
  if name ∈ fs.writeDenied then (fs, some "permission denied")
  else ({ fs with files := (name, data) :: fs.files }, none)

/-- The call `ioutil.ReadFile(name)`: the content and the error. -/
def readFile (fs : FS) (name : String) : List Byte × Option Error :=
  if name ∈ fs.readDenied then ([], some "permission denied")
  else match fs.files.lookup name with
    | some data => (data, none)
    | none => ([], some "no such file or directory")

/-! ## Library functions used by the source -/

/-- The function `filepath.Base` of the Go library on a Unix path: trailing
separators are removed, then everything up to the last separator; the empty
path gives ".", a path of separators only gives "/". -/
def filepathBase (path : String) : String :=
  if path = "" then "."
  else
    let stripped := (path.toList.reverse.dropWhile (fun c => c = '/'))
    let last := (stripped.takeWhile (fun c => c ≠ '/')).reverse
    if last = [] then "/" else String.mk last

/-- The alphabet of `base64.StdEncoding`. -/
def encodeStd : List Char :=
  "ABCDEFGHIJKLMNOPQRSTUVWXYZabcdefghijklmnopqrstuvwxyz0123456789+/".toList

/-- The character of a 6-bit value. -/
def encodeChar (n : Nat) : Char := encodeStd.getD n 'A'

/-- The 6-bit value of a character of the alphabet. -/
def decodeChar (c : Char) : Option Nat :=
  let i := encodeStd.indexOf c
  if i < 64 then some i else none

/-- The byte made of the low 8 bits of a number. -/
def toByte (n : Nat) : Byte := ⟨n % 256, Nat.mod_lt n (by decide)⟩

/-- The encoder `base64.StdEncoding.EncodeToString`, on the characters of its
result: three bytes give four characters, a rest of one or two bytes is padded
with `=`. -/
def base64Encode : List Byte → List Char
  | a :: b :: c :: rest =>
    let val := a.val * 65536 + b.val * 256 + c.val
    encodeChar (val / 262144 % 64) :: encodeChar (val / 4096 % 64) ::
      encodeChar (val / 64 % 64) :: encodeChar (val % 64) :: base64Encode rest
  | [a, b] =>
    let val := a.val * 65536 + b.val * 256
    [encodeChar (val / 262144 % 64), encodeChar (val / 4096 % 64),
      encodeChar (val / 64 % 64), '=']
  | [a] =>
    let val := a.val * 65536
    [encodeChar (val / 262144 % 64), encodeChar (val / 4096 % 64), '=', '=']
  | [] => []

/-- Decoding of padded standard base64 (RFC 4648): groups of four characters,
padding only in the last group; anything else is rejected. -/
def base64Decode : List Char → Option (List Byte)
  | [] => some []
  | c0 :: c1 :: c2 :: c3 :: rest =>
    if c3 = '=' then
      if rest ≠ [] then none
      else if c2 = '=' then
        match decodeChar c0, decodeChar c1 with
        | some v0, some v1 => some [toByte (v0 * 4 + v1 / 16)]
        | _, _ => none
      else
        match decodeChar c0, decodeChar c1, decodeChar c2 with
        | some v0, some v1, some v2 =>
          some [toByte (v0 * 4 + v1 / 16), toByte (v1 % 16 * 16 + v2 / 4)]
        | _, _, _ => none
    else
      match decodeChar c0, decodeChar c1, decodeChar c2, decodeChar c3, base64Decode rest with
      | some v0, some v1, some v2, some v3, some tail =>
        some (toByte (v0 * 4 + v1 / 16) :: toByte (v1 % 16 * 16 + v2 / 4) ::
          toByte (v2 % 4 * 64 + v3) :: tail)
      | _, _, _, _, _ => none
  | _ => none

/-! ## The source functions -/

/-- encodeImageToBase64 of src/main.go, lines 34-42. -/
def encodeImageToBase64 (fs : FS) (imagePath : String) : String × Option Error :=
  match readFile fs imagePath with
  | (_, some err) => ("", some err)
  | (imgData, none) => (String.mk (base64Encode imgData), none)

/-- Body of the loop over `slide.Shapes()`, src/main.go lines 62-72. -/
def shapeStep (slideData : SlideData) (shape : Shape) : SlideData :=
  if shape.hasText then
    let text := shape.text.1
    if slideData.Title = "" ∧ text.utf8ByteSize < 50 then
      { slideData with Title := text }
    else
      { slideData with Paragraphs := slideData.Paragraphs ++ [text] }
  else slideData

/-- The loop over `slide.Shapes()`. -/
def shapesLoop (slideData : SlideData) (shapes : List Shape) : SlideData :=
  shapes.foldl shapeStep slideData

/-- Body of the loop over `slide.Pictures()`, src/main.go lines 75-93. -/
def pictureStep (st : FS × SlideData) (pic : Picture) : FS × SlideData :=
  let imgData := pic.data.1
  let imgFileName := filepathBase pic.fileName
  let fs := (writeFile st.1 imgFileName imgData).1
  match encodeImageToBase64 fs imgFileName with
  | (_, some _) => (fs, st.2)
  | (base64Data, none) =>
    (fs, { st.2 with
      Images := st.2.Images ++ [{ Src := imgFileName, Base64 := base64Data }] })

/-- The loop over `slide.Pictures()`. -/
def picturesLoop (st : FS × SlideData) (pictures : List Picture) : FS × SlideData :=
  pictures.foldl pictureStep st

/-- Body of the loop over `ppt.Slides()`, src/main.go lines 57-96, up to the
append: the record of slide `i` and the file system it leaves. -/
def processSlide (fs : FS) (i : Nat) (slide : Slide) : FS × SlideData :=
  let slideData : SlideData := { SlideNumber := (i : Int) + 1 }
  let slideData := shapesLoop slideData slide.shapes
  picturesLoop (fs, slideData) slide.pictures

/-- The loop over `ppt.Slides()` from index `i` on. -/
def slidesLoop (fs : FS) (slidesContent : List SlideData) (i : Nat) :
    List Slide → FS × List SlideData
  | [] => (fs, slidesContent)
  | slide :: rest =>
    let r := processSlide fs i slide
    slidesLoop r.1 (slidesContent ++ [r.2]) (i + 1) rest

/-- The environment of a call: what `presentation.Open` returns for a path, and
the file system. -/
structure World where
  openDoc : String → Presentation × Option Error
  fs : FS

/-- parsePPTX of src/main.go, lines 45-99: the returned pair and the file
system the call leaves. -/
def parsePPTX (w : World) (filePath : String) : (List SlideData × Option Error) × FS :=
  match w.openDoc filePath with
  | (_, some err) => (([], some err), w.fs)
  | (ppt, none) =>
    let r := slidesLoop w.fs [] 0 ppt.slides
    ((r.2, none), r.1)

/-! ## Notions used to state the properties -/

/-- The texts the loop over the shapes sees: the string returned by `Text()` for
every shape with `HasText()`, in order, whether `Text()` failed or not. -/
def slideTexts (shapes : List Shape) : List String :=
  (shapes.filter (fun s => s.hasText)).map (fun s => s.text.1)

/-- A text shorter than 50 bytes. -/
def isShort (t : String) : Bool := decide (t.utf8ByteSize < 50)

/-- A text that replaces an empty title: not empty and shorter than 50 bytes. -/
def takesTitle (t : String) : Bool := decide (t ≠ "") && decide (t.utf8ByteSize < 50)

/-- The file system when slide `j` of the document is reached. -/
def fsBeforeSlide (fs : FS) (slides : List Slide) (j : Nat) : FS :=
  (slidesLoop fs [] 0 (slides.take j)).1

/-- The file system when the picture after the pictures `pre` of a slide is
reached, the slide being reached in `fs`. -/
def fsBeforePicture (fs : FS) (pre : List Picture) : FS :=
  (picturesLoop (fs, {}) pre).1

/-- Every picture of the list, processed in order from `fs`, extracts, is written
and is read back without an error. -/
def allPicturesSucceed (fs : FS) : List Picture → Bool
  | [] => true
  | pic :: rest =>
    let w := writeFile fs (filepathBase pic.fileName) pic.data.1
    pic.data.2.isNone && w.2.isNone
      && (encodeImageToBase64 w.1 (filepathBase pic.fileName)).2.isNone
      && allPicturesSucceed w.1 rest

/-- The shape with the error of `Text()` erased. -/
def clearTextError (s : Shape) : Shape := { s with text := (s.text.1, none) }

/-- Position, among the texts of a slide, of the first one that is not empty and
shorter than 50 bytes; the number of texts when there is none. -/
def titleIndex (texts : List String) : Nat := texts.findIdx takesTitle

/-- Position of the first text shorter than 50 bytes; the number of texts when
there is none. -/
def firstShortIndex (texts : List String) : Nat := texts.findIdx isShort

/-- The title of the rule "the first text shorter than 50 is the title". -/
def firstShortTitle (texts : List String) : Option String := texts[firstShortIndex texts]?

/-- The paragraphs of the rule "the first text shorter than 50 is the title": all
the other texts, in their order. -/
def textsOtherThanTitle (texts : List String) : List String :=
  texts.eraseIdx (firstShortIndex texts)

/-- The file system after the write attempt for a picture reached in `fs`. -/
def fsAfterWrite (fs : FS) (pic : Picture) : FS :=
  (writeFile fs (filepathBase pic.fileName) pic.data.1).1

/-- The image record of a picture whose bytes are `bytes`. -/
def imageOf (pic : Picture) (bytes : List Byte) : ImageData :=
  { Src := filepathBase pic.fileName, Alt := "", Width := 0, Height := 0,
    Base64 := String.mk (base64Encode bytes) }

/-- The base name of a path, in the words of the specification: the path with its
directory part stripped. For a path that is not empty and does not consist of
separators only, `base` is a name without separator such that the path is a
directory part (empty or ending in a separator), then `base`, then trailing
separators only. The empty path has the base name "." and a path of separators
only has the base name "/". -/
def IsBaseName (path base : String) : Prop :=
  (path = "" ∧ base = ".") ∨
  (path ≠ "" ∧ (∀ c ∈ path.toList, c = '/') ∧ base = "/") ∨
  (base ≠ "" ∧ '/' ∉ base.toList ∧
    ∃ dir trail : List Char, path.toList = dir ++ base.toList ++ trail ∧
      (∀ c ∈ trail, c = '/') ∧ (dir = [] ∨ dir.getLast? = some '/'))

/-! ## Concrete documents -/

/-- A text of `n` copies of a character. -/
def textOf (n : Nat) (c : Char) : String := String.mk (List.replicate n c)

/-- A shape with a text. -/
def textShape (t : String) : Shape := { hasText := true, text := (t, none) }

/-- A shape whose `Text()` fails and returns the empty string. -/
def failedTextShape : Shape := { hasText := true, text := ("", some "text unavailable") }

/-- A shape without text. -/
def plainShape : Shape := { hasText := false, text := ("", none) }

/-- The world in which `deck.pptx` opens as `ppt` and every other path fails. -/
def worldOf (ppt : Presentation) (fs : FS) : World :=
  { openDoc := fun p =>
      if p = "deck.pptx" then (ppt, none) else ({ slides := [] }, some "cannot open")
    fs := fs }

/-- A slide with texts of 70, 10 and 30 bytes and one picture. -/
def slideA : Slide :=
  { shapes := [textShape (textOf 70 'a'), plainShape, textShape (textOf 10 'b'),
      textShape (textOf 30 'c')]
    pictures := [{ data := ([toByte 77, toByte 97, toByte 110], none),
                   fileName := "ppt/media/image1.png" }] }

/-- A slide with an empty text before a short one, a picture whose `Data()`
fails and a picture of one byte. -/
def slideB : Slide :=
  { shapes := [textShape "", textShape "abc"]
    pictures := [{ data := ([], some "no data"), fileName := "ppt/media/image2.png" },
                 { data := ([toByte 77], none), fileName := "image3.png" }] }

/-- A document of two slides. -/
def deck : Presentation := { slides := [slideA, slideB] }

/-- The world with the two-slide document and an empty storage. -/
def deckWorld : World := worldOf deck {}

/-- A document whose only text is 30 characters of three bytes each. -/
def euroDeck : Presentation :=
  { slides := [{ shapes := [textShape (textOf 30 '€')], pictures := [] }] }

/-- A document whose only shape has the empty text. -/
def emptyTextDeck : Presentation :=
  { slides := [{ shapes := [textShape ""], pictures := [] }] }

/-- A document with a short text followed by a shape whose `Text()` fails. -/
def failedTextDeck : Presentation :=
  { slides := [{ shapes := [textShape "Intro", failedTextShape], pictures := [] }] }

/-- The same document without the shape whose `Text()` fails. -/
def failedTextDeckRest : Presentation :=
  { slides := [{ shapes := [textShape "Intro"], pictures := [] }] }

/-- A storage holding a file `image1.png` that cannot be overwritten. -/
def staleFS : FS :=
  { files := [("image1.png", [toByte 1])], writeDenied := ["image1.png"] }

/-- A picture of one byte, 2, named like the file of `staleFS`. -/
def stalePicture : Picture :=
  { data := ([toByte 2], none), fileName := "ppt/media/image1.png" }

/-- A document of one slide with the picture `stalePicture`. -/
def staleDeck : Presentation :=
  { slides := [{ shapes := [], pictures := [stalePicture] }] }

/-! ## Texts: auxiliary facts -/

theorem utf8ByteSize_eq_zero (s : String) : s.utf8ByteSize = 0 ↔ s = "" := by
  rcases s with ⟨cs⟩
  cases cs with
  | nil => simp [String.utf8ByteSize, String.utf8ByteSize.go]
  | cons c cs =>
    have hc := Char.utf8Size_pos c
    have hne : (⟨c :: cs⟩ : String) ≠ "" := by
      intro h
      have := congrArg String.data h
      simp at this
    simp only [String.utf8ByteSize, String.utf8ByteSize.go, hne, iff_false]
    omega

theorem utf8ByteSize_pos {s : String} (h : s ≠ "") : 0 < s.utf8ByteSize := by
  rcases Nat.eq_zero_or_pos s.utf8ByteSize with h0 | h0
  · exact absurd ((utf8ByteSize_eq_zero s).1 h0) h
  · exact h0

theorem shapesLoop_nil (sd : SlideData) : shapesLoop sd [] = sd := rfl

theorem shapesLoop_cons (sd : SlideData) (s : Shape) (rest : List Shape) :
    shapesLoop sd (s :: rest) = shapesLoop (shapeStep sd s) rest := rfl

theorem shapesLoop_append (sd : SlideData) (xs ys : List Shape) :
    shapesLoop sd (xs ++ ys) = shapesLoop (shapesLoop sd xs) ys := by
  simp [shapesLoop, List.foldl_append]

theorem slideTexts_nil : slideTexts [] = [] := rfl

theorem slideTexts_cons (s : Shape) (rest : List Shape) :
    slideTexts (s :: rest) =
      if s.hasText then s.text.1 :: slideTexts rest else slideTexts rest := by
  cases h : s.hasText <;> simp [slideTexts, List.filter, h]

/-- Once a title is set every later text is appended to the paragraphs. -/
theorem shapesLoop_of_title (shapes : List Shape) (sd : SlideData) (h : sd.Title ≠ "") :
    shapesLoop sd shapes = { sd with Paragraphs := sd.Paragraphs ++ slideTexts shapes } := by
  induction shapes generalizing sd with
  | nil => simp [shapesLoop_nil, slideTexts_nil]
  | cons s rest ih =>
    rw [shapesLoop_cons, slideTexts_cons]
    by_cases ht : s.hasText
    · have hstep : shapeStep sd s = { sd with Paragraphs := sd.Paragraphs ++ [s.text.1] } := by
        simp [shapeStep, ht, h]
      rw [hstep, ih _ (by simpa using h)]
      simp [ht]
    · have hstep : shapeStep sd s = sd := by simp [shapeStep, ht]
      rw [hstep, ih _ h]
      simp [ht]

/-- The loop over the shapes from a state without a title. -/
theorem shapesLoop_of_no_title (shapes : List Shape) (sd : SlideData) (h : sd.Title = "") :
    shapesLoop sd shapes =
      { sd with
        Title := (((slideTexts shapes).dropWhile (fun t => !takesTitle t)).head?).getD ""
        Paragraphs := sd.Paragraphs ++
          (((slideTexts shapes).takeWhile (fun t => !takesTitle t)).filter (fun t => decide (t ≠ ""))
            ++ ((slideTexts shapes).dropWhile (fun t => !takesTitle t)).tail) } := by
  induction shapes generalizing sd with
  | nil =>
    cases sd
    simp_all [shapesLoop_nil, slideTexts_nil]
  | cons s rest ih =>
    rw [shapesLoop_cons, slideTexts_cons]
    by_cases ht : s.hasText
    · simp only [ht, if_true]
      by_cases hempty : s.text.1 = ""
      · have hstep : shapeStep sd s = sd := by
          cases sd
          simp_all [shapeStep, String.utf8ByteSize, String.utf8ByteSize.go]
        have hT : takesTitle s.text.1 = false := by simp [takesTitle, hempty]
        rw [hstep, ih _ h]
        rw [hempty] at hT
        simp [hempty, List.takeWhile_cons, List.dropWhile_cons, hT]
      · by_cases hshort : s.text.1.utf8ByteSize < 50
        · have hstep : shapeStep sd s = { sd with Title := s.text.1 } := by
            simp [shapeStep, ht, h, hshort]
          have hT : takesTitle s.text.1 = true := by simp [takesTitle, hempty, hshort]
          rw [hstep, shapesLoop_of_title _ _ (by simpa using hempty)]
          simp [List.takeWhile_cons, List.dropWhile_cons, hT]
        · have hstep : shapeStep sd s = { sd with Paragraphs := sd.Paragraphs ++ [s.text.1] } := by
            simp [shapeStep, ht, hshort]
          have hT : takesTitle s.text.1 = false := by simp [takesTitle, hshort]
          rw [hstep, ih _ (by simpa using h)]
          simp [List.takeWhile_cons, List.dropWhile_cons, hT, hempty]
    · have hstep : shapeStep sd s = sd := by simp [shapeStep, ht]
      rw [hstep, ih _ h]
      simp [ht]

/-! ## Loops: auxiliary facts -/

theorem picturesLoop_nil (st : FS × SlideData) : picturesLoop st [] = st := rfl

theorem picturesLoop_cons (st : FS × SlideData) (p : Picture) (rest : List Picture) :
    picturesLoop st (p :: rest) = picturesLoop (pictureStep st p) rest := rfl

theorem picturesLoop_append (st : FS × SlideData) (xs ys : List Picture) :
    picturesLoop st (xs ++ ys) = picturesLoop (picturesLoop st xs) ys := by
  simp [picturesLoop, List.foldl_append]

theorem pictureStep_fst (st : FS × SlideData) (pic : Picture) :
    (pictureStep st pic).1 = (writeFile st.1 (filepathBase pic.fileName) pic.data.1).1 := by
  unfold pictureStep
  dsimp only
  split <;> rfl

/-- One picture either leaves the record as it is (read back failed) or appends
one image built from the bytes read back. -/
theorem pictureStep_snd (st : FS × SlideData) (pic : Picture) :
    (pictureStep st pic).2 =
      if (readFile (pictureStep st pic).1 (filepathBase pic.fileName)).2 = none then
        { st.2 with Images := st.2.Images ++
            [{ Src := filepathBase pic.fileName,
               Base64 := String.mk (base64Encode
                 (readFile (pictureStep st pic).1 (filepathBase pic.fileName)).1) }] }
      else st.2 := by
  rw [pictureStep_fst]
  unfold pictureStep encodeImageToBase64
  dsimp only
  rcases hr : readFile (writeFile st.1 (filepathBase pic.fileName) pic.data.1).1
      (filepathBase pic.fileName) with ⟨bytes, _ | e⟩
  · simp
  · simp

theorem pictureStep_fst_indep (fs : FS) (sd sd' : SlideData) (pic : Picture) :
    (pictureStep (fs, sd) pic).1 = (pictureStep (fs, sd') pic).1 := by
  rw [pictureStep_fst, pictureStep_fst]

theorem picturesLoop_fst_indep (pics : List Picture) (fs : FS) (sd sd' : SlideData) :
    (picturesLoop (fs, sd) pics).1 = (picturesLoop (fs, sd') pics).1 := by
  induction pics generalizing fs sd sd' with
  | nil => rfl
  | cons p rest ih =>
    rw [picturesLoop_cons, picturesLoop_cons]
    have h := pictureStep_fst_indep fs sd sd' p
    rcases h1 : pictureStep (fs, sd) p with ⟨f1, d1⟩
    rcases h2 : pictureStep (fs, sd') p with ⟨f2, d2⟩
    rw [h1, h2] at h
    dsimp only at h
    subst h
    exact ih f1 d1 d2

/-- The loop over the pictures changes the field Images only. -/
theorem picturesLoop_snd (pics : List Picture) (fs : FS) (sd : SlideData) :
    (picturesLoop (fs, sd) pics).2 =
      { sd with Images := (picturesLoop (fs, sd) pics).2.Images } := by
  induction pics generalizing fs sd with
  | nil => rfl
  | cons p rest ih =>
    rw [picturesLoop_cons]
    rcases h1 : pictureStep (fs, sd) p with ⟨f1, d1⟩
    have hs := pictureStep_snd (fs, sd) p
    rw [h1] at hs
    dsimp only at hs
    rw [ih f1 d1]
    split at hs <;> simp [hs]

/-- The images found by the loop over the pictures do not depend on the other
fields of the record. -/
theorem picturesLoop_images (pics : List Picture) (fs : FS) (sd : SlideData) :
    (picturesLoop (fs, sd) pics).2.Images =
      sd.Images ++ (picturesLoop (fs, {}) pics).2.Images := by
  induction pics generalizing fs sd with
  | nil => simp [picturesLoop_nil]
  | cons p rest ih =>
    rw [picturesLoop_cons, picturesLoop_cons]
    have hf := pictureStep_fst_indep fs sd {} p
    rcases h1 : pictureStep (fs, sd) p with ⟨f1, d1⟩
    rcases h2 : pictureStep (fs, {}) p with ⟨f2, d2⟩
    have hs1 := pictureStep_snd (fs, sd) p
    have hs2 := pictureStep_snd (fs, {}) p
    rw [h1] at hs1 hf
    rw [h2] at hs2 hf
    dsimp only at hs1 hs2 hf
    subst hf
    rw [ih f1 d1, ih f1 d2]
    split at hs1
    · rename_i hok
      rw [if_pos hok] at hs2
      simp [hs1, hs2]
    · rename_i hok
      rw [if_neg hok] at hs2
      simp [hs1, hs2]

theorem shapesLoop_fields (shapes : List Shape) (sd : SlideData) :
    (shapesLoop sd shapes).SlideNumber = sd.SlideNumber ∧
      (shapesLoop sd shapes).Subheading = sd.Subheading ∧
      (shapesLoop sd shapes).Images = sd.Images ∧
      (shapesLoop sd shapes).SpeakerNotes = sd.SpeakerNotes := by
  induction shapes generalizing sd with
  | nil => simp [shapesLoop_nil]
  | cons s rest ih =>
    rw [shapesLoop_cons]
    have h := ih (shapeStep sd s)
    have hstep : (shapeStep sd s).SlideNumber = sd.SlideNumber ∧
        (shapeStep sd s).Subheading = sd.Subheading ∧
        (shapeStep sd s).Images = sd.Images ∧
        (shapeStep sd s).SpeakerNotes = sd.SpeakerNotes := by
      unfold shapeStep
      split
      · dsimp only
        split <;> simp
      · simp
    rw [h.1, h.2.1, h.2.2.1, h.2.2.2]
    exact hstep

/-- Title and paragraphs found by the loop over the shapes from an empty record
do not depend on the slide number. -/
theorem shapesLoop_slideNumber (shapes : List Shape) (n : Int) :
    (shapesLoop { SlideNumber := n } shapes).Title = (shapesLoop {} shapes).Title ∧
      (shapesLoop { SlideNumber := n } shapes).Paragraphs = (shapesLoop {} shapes).Paragraphs := by
  rw [shapesLoop_of_no_title shapes { SlideNumber := n } rfl,
    shapesLoop_of_no_title shapes {} rfl]
  simp

theorem processSlide_fst (fs : FS) (i : Nat) (slide : Slide) :
    (processSlide fs i slide).1 = (picturesLoop (fs, {}) slide.pictures).1 := by
  unfold processSlide
  exact picturesLoop_fst_indep _ _ _ _

/-- The record of a slide, field by field. -/
theorem processSlide_snd (fs : FS) (i : Nat) (slide : Slide) :
    (processSlide fs i slide).2 =
      { SlideNumber := (i : Int) + 1
        Title := (shapesLoop {} slide.shapes).Title
        Paragraphs := (shapesLoop {} slide.shapes).Paragraphs
        Images := (picturesLoop (fs, {}) slide.pictures).2.Images } := by
  unfold processSlide
  dsimp only
  rw [picturesLoop_snd, picturesLoop_images]
  have hf := shapesLoop_fields slide.shapes { SlideNumber := (i : Int) + 1 }
  have hn := shapesLoop_slideNumber slide.shapes ((i : Int) + 1)
  rw [hf.1, hf.2.1, hf.2.2.1, hf.2.2.2, hn.1, hn.2]
  simp

theorem slidesLoop_fst_indep (slides : List Slide) (fs : FS) (acc acc' : List SlideData)
    (i i' : Nat) :
    (slidesLoop fs acc i slides).1 = (slidesLoop fs acc' i' slides).1 := by
  induction slides generalizing fs acc acc' i i' with
  | nil => rfl
  | cons s rest ih =>
    simp only [slidesLoop]
    rw [processSlide_fst fs i s, processSlide_fst fs i' s]
    exact ih _ _ _ _ _

theorem slidesLoop_snd (slides : List Slide) (fs : FS) (acc : List SlideData) (i : Nat) :
    (slidesLoop fs acc i slides).2 = acc ++ (slidesLoop fs [] i slides).2 := by
  induction slides generalizing fs acc i with
  | nil => simp [slidesLoop]
  | cons s rest ih =>
    simp only [slidesLoop]
    rw [ih _ (acc ++ [(processSlide fs i s).2]), ih _ ([] ++ [(processSlide fs i s).2])]
    simp

theorem slidesLoop_length (slides : List Slide) (fs : FS) (i : Nat) :
    (slidesLoop fs [] i slides).2.length = slides.length := by
  induction slides generalizing fs i with
  | nil => rfl
  | cons s rest ih =>
    simp only [slidesLoop]
    rw [slidesLoop_snd]
    simp [ih]

/-- The record at position `j` is the one of slide `j`, built in the file system
the earlier slides left. -/
theorem slidesLoop_get (slides : List Slide) (fs : FS) (i j : Nat) (slide : Slide)
    (h : slides[j]? = some slide) :
    (slidesLoop fs [] i slides).2[j]? =
      some (processSlide (fsBeforeSlide fs slides j) (i + j) slide).2 := by
  induction slides generalizing fs i j with
  | nil => simp at h
  | cons s rest ih =>
    simp only [slidesLoop]
    rw [slidesLoop_snd]
    cases j with
    | zero =>
      simp at h
      subst h
      simp [fsBeforeSlide, slidesLoop]
    | succ k =>
      simp at h
      have := ih (processSlide fs i s).1 (i + 1) k h
      simp only [List.nil_append, List.singleton_append, List.getElem?_cons_succ]
      rw [this]
      have hfs : fsBeforeSlide fs (s :: rest) (k + 1) =
          fsBeforeSlide (processSlide fs i s).1 rest k := by
        simp only [fsBeforeSlide, List.take_succ_cons, slidesLoop]
        rw [processSlide_fst fs 0 s, processSlide_fst fs i s]
        exact slidesLoop_fst_indep _ _ _ _ _ _
      rw [hfs]
      congr 3
      omega

theorem parsePPTX_of_open (w : World) (filePath : String) (ppt : Presentation)
    (h : w.openDoc filePath = (ppt, none)) :
    (parsePPTX w filePath).1 = ((slidesLoop w.fs [] 0 ppt.slides).2, none) := by
  simp [parsePPTX, h]

/-- The record of slide `j` in the result of a call that opened the document. -/
theorem parsePPTX_get (w : World) (filePath : String) (ppt : Presentation)
    (h : w.openDoc filePath = (ppt, none)) (j : Nat) (slide : Slide)
    (hj : ppt.slides[j]? = some slide) :
    (parsePPTX w filePath).1.1[j]? =
      some (processSlide (fsBeforeSlide w.fs ppt.slides j) j slide).2 := by
  rw [parsePPTX_of_open w filePath ppt h]
  have := slidesLoop_get ppt.slides w.fs 0 j slide hj
  simpa using this

/-! ## Base64: auxiliary facts -/

theorem decodeChar_encodeChar_fin : ∀ n : Fin 64, decodeChar (encodeChar n.val) = some n.val := by
  decide

theorem encodeChar_ne_pad_fin : ∀ n : Fin 64, encodeChar n.val ≠ '=' := by
  decide

theorem decodeChar_encodeChar (n : Nat) (h : n < 64) : decodeChar (encodeChar n) = some n :=
  decodeChar_encodeChar_fin ⟨n, h⟩

theorem encodeChar_ne_pad (n : Nat) (h : n < 64) : encodeChar n ≠ '=' :=
  encodeChar_ne_pad_fin ⟨n, h⟩

theorem toByte_eq (n : Nat) (a : Byte) (h : n % 256 = a.val) : toByte n = a := by
  apply Fin.ext
  simpa [toByte] using h

/-- Decoding what the encoder produced gives the bytes back. -/
theorem base64Decode_encode (bs : List Byte) : base64Decode (base64Encode bs) = some bs := by
  induction bs using base64Encode.induct with
  | case1 a b c rest ih =>
    have ha := a.isLt
    have hb := b.isLt
    have hc := c.isLt
    simp only [base64Encode, base64Decode]
    rw [if_neg (encodeChar_ne_pad _ (Nat.mod_lt _ (by decide)))]
    rw [decodeChar_encodeChar _ (Nat.mod_lt _ (by decide)),
      decodeChar_encodeChar _ (Nat.mod_lt _ (by decide)),
      decodeChar_encodeChar _ (Nat.mod_lt _ (by decide)),
      decodeChar_encodeChar _ (Nat.mod_lt _ (by decide)), ih]
    simp only [Option.some.injEq, List.cons.injEq, and_true]
    refine ⟨toByte_eq _ _ ?_, toByte_eq _ _ ?_, toByte_eq _ _ ?_⟩ <;> omega
  | case2 a b =>
    have ha := a.isLt
    have hb := b.isLt
    simp only [base64Encode, base64Decode]
    rw [if_pos trivial, if_neg (by simp), if_neg (encodeChar_ne_pad _ (Nat.mod_lt _ (by decide)))]
    rw [decodeChar_encodeChar _ (Nat.mod_lt _ (by decide)),
      decodeChar_encodeChar _ (Nat.mod_lt _ (by decide)),
      decodeChar_encodeChar _ (Nat.mod_lt _ (by decide))]
    simp only [Option.some.injEq, List.cons.injEq, and_true]
    refine ⟨toByte_eq _ _ ?_, toByte_eq _ _ ?_⟩ <;> omega
  | case3 a =>
    have ha := a.isLt
    simp only [base64Encode, base64Decode]
    rw [if_pos trivial, if_neg (by simp), if_pos trivial]
    rw [decodeChar_encodeChar _ (Nat.mod_lt _ (by decide)),
      decodeChar_encodeChar _ (Nat.mod_lt _ (by decide))]
    simp only [Option.some.injEq, List.cons.injEq, and_true]
    exact toByte_eq _ _ (by omega)
  | case4 => rfl

/-! ## Texts of a slide: the record in closed form -/

theorem takesTitle_false_iff (t : String) :
    takesTitle t = false ↔ t = "" ∨ 50 ≤ t.utf8ByteSize := by
  simp only [takesTitle, Bool.and_eq_false_iff, decide_eq_false_iff_not, not_not, not_lt]

theorem takesTitle_true_iff (t : String) :
    takesTitle t = true ↔ t ≠ "" ∧ t.utf8ByteSize < 50 := by
  simp only [takesTitle, Bool.and_eq_true, decide_eq_true_eq]

theorem texts_title (texts : List String) :
    ((texts.dropWhile (fun t => !takesTitle t)).head?).getD "" =
      (texts[titleIndex texts]?).getD "" := by
  induction texts with
  | nil => rfl
  | cons t rest ih =>
    cases hT : takesTitle t
    · simp only [titleIndex] at ih ⊢
      simp [List.dropWhile_cons, List.findIdx_cons, hT, ih]
    · simp [titleIndex, List.dropWhile_cons, List.findIdx_cons, hT]

theorem texts_paragraphs (texts : List String) :
    ((texts.takeWhile (fun t => !takesTitle t)).filter (fun t => decide (t ≠ "")))
        ++ (texts.dropWhile (fun t => !takesTitle t)).tail =
      ((texts.take (titleIndex texts)).filter (fun t => decide (50 ≤ t.utf8ByteSize)))
        ++ texts.drop (titleIndex texts + 1) := by
  induction texts with
  | nil => rfl
  | cons t rest ih =>
    cases hT : takesTitle t
    · simp only [titleIndex] at ih ⊢
      have hcase := (takesTitle_false_iff t).1 hT
      simp only [List.takeWhile_cons, List.dropWhile_cons, List.findIdx_cons, hT, Bool.not_false,
        cond_false, if_true, List.take_succ_cons, List.drop_succ_cons, List.filter_cons]
      rcases hcase with h0 | h50
      · have hb : ¬ (50 ≤ t.utf8ByteSize) := by
          rw [h0]
          decide
        simp only [h0, ne_eq, not_true_eq_false, decide_False, hb] at ih ⊢
        simpa using ih
      · have hne : t ≠ "" := by
          intro h0
          rw [h0] at h50
          revert h50
          decide
        simp only [hne, ne_eq, not_false_eq_true, decide_True, h50, if_true, List.cons_append,
          List.cons.injEq, true_and] at ih ⊢
        simpa using ih
    · simp [titleIndex, List.takeWhile_cons, List.dropWhile_cons, List.findIdx_cons, hT]

/-- Title and paragraphs found by the loop over the shapes from an empty record. -/
theorem shapesLoop_empty (shapes : List Shape) :
    (shapesLoop {} shapes).Title =
        ((slideTexts shapes)[titleIndex (slideTexts shapes)]?).getD "" ∧
      (shapesLoop {} shapes).Paragraphs =
        (((slideTexts shapes).take (titleIndex (slideTexts shapes))).filter
            (fun t => decide (50 ≤ t.utf8ByteSize)))
          ++ (slideTexts shapes).drop (titleIndex (slideTexts shapes) + 1) := by
  rw [shapesLoop_of_no_title shapes {} rfl]
  exact ⟨texts_title _, by simpa using texts_paragraphs (slideTexts shapes)⟩

theorem titleIndex_spec (texts : List String) :
    (∀ t ∈ texts.take (titleIndex texts), t = "" ∨ 50 ≤ t.utf8ByteSize) ∧
      (∀ t, texts[titleIndex texts]? = some t → t ≠ "" ∧ t.utf8ByteSize < 50) := by
  induction texts with
  | nil => simp [titleIndex]
  | cons t rest ih =>
    cases hT : takesTitle t
    · simp only [titleIndex] at ih ⊢
      simp only [List.findIdx_cons, hT, cond_false, List.take_succ_cons, List.mem_cons,
        List.getElem?_cons_succ]
      refine ⟨?_, ih.2⟩
      intro u hu
      rcases hu with rfl | hu
      · exact (takesTitle_false_iff _).1 hT
      · exact ih.1 u hu
    · simp only [titleIndex, List.findIdx_cons, hT, cond_true, List.take_zero, List.not_mem_nil,
        false_imp_iff, implies_true, List.getElem?_cons_zero, Option.some.injEq, true_and]
      intro u hu
      subst hu
      exact (takesTitle_true_iff _).1 hT

/-! ## The claims -/

/-- C1. A document that opens and has N slides gives exactly N records; the
record at position j is the one built from slide j (in the file system the
earlier slides left) and its SlideNumber is j + 1. -/
theorem parsePPTX_one_record_per_slide (w : World) (filePath : String) (ppt : Presentation)
    (h : w.openDoc filePath = (ppt, none)) :
    (parsePPTX w filePath).1.1.length = ppt.slides.length ∧
      ∀ (j : Nat) (slide : Slide), ppt.slides[j]? = some slide →
        ∃ rec, (parsePPTX w filePath).1.1[j]? = some rec ∧
          rec = (processSlide (fsBeforeSlide w.fs ppt.slides j) j slide).2 ∧
          rec.SlideNumber = (j : Int) + 1 := by
  refine ⟨?_, ?_⟩
  · rw [parsePPTX_of_open w filePath ppt h]
    exact slidesLoop_length _ _ _
  · intro j slide hj
    refine ⟨_, parsePPTX_get w filePath ppt h j slide hj, rfl, ?_⟩
    rw [processSlide_snd]

/-- The two-slide document `deck` opens in `deckWorld` and gives its two records. -/
theorem parsePPTX_one_record_per_slide_witness :
    deckWorld.openDoc "deck.pptx" = (deck, none) ∧
      ((parsePPTX deckWorld "deck.pptx").1.1.length = deck.slides.length ∧
        ∀ (j : Nat) (slide : Slide), deck.slides[j]? = some slide →
          ∃ rec, (parsePPTX deckWorld "deck.pptx").1.1[j]? = some rec ∧
            rec = (processSlide (fsBeforeSlide deckWorld.fs deck.slides j) j slide).2 ∧
            rec.SlideNumber = (j : Int) + 1) :=
  ⟨rfl, parsePPTX_one_record_per_slide deckWorld "deck.pptx" deck rfl⟩

/-- C6. The call returns an error exactly when opening the document fails; then
it returns no record together with that error; when opening succeeds it returns
one record per slide and no error, whatever the shapes and pictures do. -/
theorem parsePPTX_error_iff_open_fails (w : World) (filePath : String) :
    ((parsePPTX w filePath).1.2 ≠ none ↔ (w.openDoc filePath).2 ≠ none) ∧
      ((w.openDoc filePath).2 ≠ none →
        (parsePPTX w filePath).1 = ([], (w.openDoc filePath).2)) ∧
      ((w.openDoc filePath).2 = none →
        (parsePPTX w filePath).1 =
            ((slidesLoop w.fs [] 0 (w.openDoc filePath).1.slides).2, none) ∧
          (parsePPTX w filePath).1.1.length = (w.openDoc filePath).1.slides.length) := by
  rcases ho : w.openDoc filePath with ⟨ppt, _ | e⟩
  · have hp := parsePPTX_of_open w filePath ppt ho
    refine ⟨by simp [hp], by simp, ?_⟩
    intro _
    refine ⟨hp, ?_⟩
    rw [hp]
    exact slidesLoop_length _ _ _
  · have hp : (parsePPTX w filePath).1 = ([], some e) := by simp [parsePPTX, ho]
    simp [hp]

/-- C10. The Title of a slide is the first text that is not empty and shorter
than 50 bytes (the empty string if there is none); of the texts before it those
of at least 50 bytes are paragraphs and the others, all empty, are dropped; every
text after it is a paragraph; a Title that is not empty has 1 to 49 bytes. -/
theorem parsePPTX_title_first_nonempty_short (w : World) (filePath : String)
    (ppt : Presentation) (h : w.openDoc filePath = (ppt, none))
    (j : Nat) (slide : Slide) (hj : ppt.slides[j]? = some slide) :
    ∃ rec, (parsePPTX w filePath).1.1[j]? = some rec ∧
      rec.Title =
        ((slideTexts slide.shapes)[titleIndex (slideTexts slide.shapes)]?).getD "" ∧
      rec.Paragraphs =
        (((slideTexts slide.shapes).take (titleIndex (slideTexts slide.shapes))).filter
            (fun t => decide (50 ≤ t.utf8ByteSize)))
          ++ (slideTexts slide.shapes).drop (titleIndex (slideTexts slide.shapes) + 1) ∧
      (∀ t ∈ (slideTexts slide.shapes).take (titleIndex (slideTexts slide.shapes)),
        t = "" ∨ 50 ≤ t.utf8ByteSize) ∧
      (∀ t, (slideTexts slide.shapes)[titleIndex (slideTexts slide.shapes)]? = some t →
        t ≠ "" ∧ t.utf8ByteSize < 50) ∧
      (rec.Title ≠ "" → 1 ≤ rec.Title.utf8ByteSize ∧ rec.Title.utf8ByteSize ≤ 49) := by
  have hspec := titleIndex_spec (slideTexts slide.shapes)
  have hloop := shapesLoop_empty slide.shapes
  refine ⟨_, parsePPTX_get w filePath ppt h j slide hj, ?_, ?_, hspec.1, hspec.2, ?_⟩
  · rw [processSlide_snd]
    exact hloop.1
  · rw [processSlide_snd]
    exact hloop.2
  · rw [processSlide_snd]
    dsimp only
    rw [hloop.1]
    intro hne
    rcases hg : (slideTexts slide.shapes)[titleIndex (slideTexts slide.shapes)]? with _ | t
    · rw [hg] at hne
      exact absurd rfl hne
    · have := hspec.2 t hg
      simp only [Option.getD_some]
      have hpos := utf8ByteSize_pos this.1
      omega

/-- The second slide of `deck`, whose texts are the empty string and "abc". -/
theorem parsePPTX_title_first_nonempty_short_witness :
    deckWorld.openDoc "deck.pptx" = (deck, none) ∧ deck.slides[1]? = some slideB ∧
    ∃ rec, (parsePPTX deckWorld "deck.pptx").1.1[1]? = some rec ∧
      rec.Title =
        ((slideTexts slideB.shapes)[titleIndex (slideTexts slideB.shapes)]?).getD "" ∧
      rec.Paragraphs =
        (((slideTexts slideB.shapes).take (titleIndex (slideTexts slideB.shapes))).filter
            (fun t => decide (50 ≤ t.utf8ByteSize)))
          ++ (slideTexts slideB.shapes).drop (titleIndex (slideTexts slideB.shapes) + 1) ∧
      (∀ t ∈ (slideTexts slideB.shapes).take (titleIndex (slideTexts slideB.shapes)),
        t = "" ∨ 50 ≤ t.utf8ByteSize) ∧
      (∀ t, (slideTexts slideB.shapes)[titleIndex (slideTexts slideB.shapes)]? = some t →
        t ≠ "" ∧ t.utf8ByteSize < 50) ∧
      (rec.Title ≠ "" → 1 ≤ rec.Title.utf8ByteSize ∧ rec.Title.utf8ByteSize ≤ 49) :=
  ⟨rfl, rfl, parsePPTX_title_first_nonempty_short deckWorld "deck.pptx" deck rfl 1 slideB rfl⟩

theorem firstShort_eq_titleIndex (texts : List String)
    (hne : ∀ t, firstShortTitle texts = some t → t ≠ "") :
    titleIndex texts = firstShortIndex texts ∧
      (texts.take (firstShortIndex texts)).filter (fun t => decide (50 ≤ t.utf8ByteSize)) =
        texts.take (firstShortIndex texts) := by
  induction texts with
  | nil => simp [titleIndex, firstShortIndex]
  | cons t rest ih =>
    simp only [firstShortTitle, firstShortIndex, titleIndex] at ih hne ⊢
    cases hS : isShort t
    · have h50 : 50 ≤ t.utf8ByteSize := by
        simpa [isShort] using hS
      have hT : takesTitle t = false := (takesTitle_false_iff t).2 (Or.inr h50)
      simp only [List.findIdx_cons, hS, cond_false, List.getElem?_cons_succ] at hne
      have := ih hne
      simp only [List.findIdx_cons, hS, hT, cond_false, List.take_succ_cons, List.filter_cons,
        h50, decide_True, if_true, this.1, this.2, and_self]
    · simp only [List.findIdx_cons, hS, cond_true, List.getElem?_cons_zero, Option.some.injEq]
        at hne
      have hlt : t.utf8ByteSize < 50 := by
        simpa [isShort] using hS
      have hT : takesTitle t = true := (takesTitle_true_iff t).2 ⟨hne t rfl, hlt⟩
      simp [List.findIdx_cons, hS, hT]

/-- C2, amended. When the first text shorter than 50 bytes (if there is one) is
not empty, the Title of the slide is that text and Paragraphs is the list of all
the other texts in their order. -/
theorem parsePPTX_title_first_short (w : World) (filePath : String)
    (ppt : Presentation) (h : w.openDoc filePath = (ppt, none))
    (j : Nat) (slide : Slide) (hj : ppt.slides[j]? = some slide)
    (hne : ∀ t, firstShortTitle (slideTexts slide.shapes) = some t → t ≠ "") :
    ∃ rec, (parsePPTX w filePath).1.1[j]? = some rec ∧
      rec.Title = (firstShortTitle (slideTexts slide.shapes)).getD "" ∧
      rec.Paragraphs = textsOtherThanTitle (slideTexts slide.shapes) := by
  have hk := firstShort_eq_titleIndex (slideTexts slide.shapes) hne
  have hloop := shapesLoop_empty slide.shapes
  refine ⟨_, parsePPTX_get w filePath ppt h j slide hj, ?_, ?_⟩
  · rw [processSlide_snd]
    dsimp only
    rw [hloop.1, hk.1]
    rfl
  · rw [processSlide_snd]
    dsimp only
    rw [hloop.2, hk.1, hk.2, textsOtherThanTitle, List.eraseIdx_eq_take_drop_succ]

/-- The first slide of `deck`: texts of 70, 10 and 30 bytes give the text of 10 bytes as
Title and the texts of 70 and 30 bytes as Paragraphs. -/
theorem parsePPTX_title_first_short_witness :
    deckWorld.openDoc "deck.pptx" = (deck, none) ∧ deck.slides[0]? = some slideA ∧
    (∀ t, firstShortTitle (slideTexts slideA.shapes) = some t → t ≠ "") ∧
    slideTexts slideA.shapes = [textOf 70 'a', textOf 10 'b', textOf 30 'c'] ∧
    firstShortTitle (slideTexts slideA.shapes) = some (textOf 10 'b') ∧
    textsOtherThanTitle (slideTexts slideA.shapes) = [textOf 70 'a', textOf 30 'c'] ∧
    ∃ rec, (parsePPTX deckWorld "deck.pptx").1.1[0]? = some rec ∧
      rec.Title = (firstShortTitle (slideTexts slideA.shapes)).getD "" ∧
      rec.Paragraphs = textsOtherThanTitle (slideTexts slideA.shapes) :=
  have hne : ∀ t, firstShortTitle (slideTexts slideA.shapes) = some t → t ≠ "" := by
    intro t ht
    have hv : firstShortTitle (slideTexts slideA.shapes) = some (textOf 10 'b') := by decide
    rw [hv] at ht
    cases ht
    decide
  ⟨rfl, rfl, hne, by decide, by decide, by decide,
    parsePPTX_title_first_short deckWorld "deck.pptx" deck rfl 0 slideA rfl hne⟩

/-- C2 fails when an empty text comes first. The texts of the slide are the empty
string and "abc": the rule of the claim makes the empty text the title and
"abc" a paragraph, the code makes "abc" the Title and leaves Paragraphs empty. -/
theorem parsePPTX_empty_text_does_not_claim_title :
    deckWorld.openDoc "deck.pptx" = (deck, none) ∧ deck.slides[1]? = some slideB ∧
    slideTexts slideB.shapes = ["", "abc"] ∧
    firstShortTitle (slideTexts slideB.shapes) = some "" ∧
    textsOtherThanTitle (slideTexts slideB.shapes) = ["abc"] ∧
    ((parsePPTX deckWorld "deck.pptx").1.1[1]?).map (fun r => (r.Title, r.Paragraphs)) =
      some ("abc", []) ∧
    ((parsePPTX deckWorld "deck.pptx").1.1[1]?).map (fun r => (r.Title, r.Paragraphs)) ≠
      some ((firstShortTitle (slideTexts slideB.shapes)).getD "",
        textsOtherThanTitle (slideTexts slideB.shapes)) := by
  decide

/-- C7, amended. The threshold is measured in bytes: a text reached while the
Title is still empty becomes the Title exactly when it has fewer than 50 bytes;
otherwise it is appended to Paragraphs. -/
theorem shapesLoop_title_threshold_bytes (sd0 : SlideData) (pre : List Shape) (s : Shape)
    (hs : s.hasText = true) (hT : (shapesLoop sd0 pre).Title = "") :
    ((shapesLoop sd0 (pre ++ [s])).Title = s.text.1 ↔ s.text.1.utf8ByteSize < 50) ∧
      (s.text.1.utf8ByteSize < 50 →
        shapesLoop sd0 (pre ++ [s]) = { shapesLoop sd0 pre with Title := s.text.1 }) ∧
      (50 ≤ s.text.1.utf8ByteSize →
        shapesLoop sd0 (pre ++ [s]) =
          { shapesLoop sd0 pre with
            Paragraphs := (shapesLoop sd0 pre).Paragraphs ++ [s.text.1] }) := by
  rw [shapesLoop_append, shapesLoop_cons, shapesLoop_nil]
  by_cases hlt : s.text.1.utf8ByteSize < 50
  · have hstep : shapeStep (shapesLoop sd0 pre) s =
        { shapesLoop sd0 pre with Title := s.text.1 } := by
      simp [shapeStep, hs, hT, hlt]
    rw [hstep]
    refine ⟨by simp [hlt], fun _ => rfl, fun h50 => ?_⟩
    omega
  · have hstep : shapeStep (shapesLoop sd0 pre) s =
        { shapesLoop sd0 pre with
          Paragraphs := (shapesLoop sd0 pre).Paragraphs ++ [s.text.1] } := by
      simp [shapeStep, hs, hlt]
    rw [hstep]
    refine ⟨?_, fun h => absurd h hlt, fun _ => rfl⟩
    simp only [hT, hlt, iff_false]
    intro h0
    have := (utf8ByteSize_eq_zero s.text.1).2 h0.symm
    omega

/-- A text of 10 bytes reached after a text of 70 bytes and a shape without text. -/
theorem shapesLoop_title_threshold_bytes_witness :
    (textShape (textOf 10 'b')).hasText = true ∧
    (shapesLoop { SlideNumber := 1 } [textShape (textOf 70 'a'), plainShape]).Title = "" ∧
    (((shapesLoop { SlideNumber := 1 }
          ([textShape (textOf 70 'a'), plainShape] ++ [textShape (textOf 10 'b')])).Title =
        (textShape (textOf 10 'b')).text.1 ↔
        (textShape (textOf 10 'b')).text.1.utf8ByteSize < 50) ∧
      ((textShape (textOf 10 'b')).text.1.utf8ByteSize < 50 →
        shapesLoop { SlideNumber := 1 }
            ([textShape (textOf 70 'a'), plainShape] ++ [textShape (textOf 10 'b')]) =
          { shapesLoop { SlideNumber := 1 } [textShape (textOf 70 'a'), plainShape] with
            Title := (textShape (textOf 10 'b')).text.1 }) ∧
      (50 ≤ (textShape (textOf 10 'b')).text.1.utf8ByteSize →
        shapesLoop { SlideNumber := 1 }
            ([textShape (textOf 70 'a'), plainShape] ++ [textShape (textOf 10 'b')]) =
          { shapesLoop { SlideNumber := 1 } [textShape (textOf 70 'a'), plainShape] with
            Paragraphs :=
              (shapesLoop { SlideNumber := 1 } [textShape (textOf 70 'a'), plainShape]).Paragraphs
                ++ [(textShape (textOf 10 'b')).text.1] })) :=
  ⟨rfl, by decide,
    shapesLoop_title_threshold_bytes { SlideNumber := 1 } [textShape (textOf 70 'a'), plainShape]
      (textShape (textOf 10 'b')) rfl (by decide)⟩

/-- C7 fails for characters of several bytes. The only text of the slide has 30
characters, fewer than 50, and 90 bytes: it is reached while no title is
assigned and does not become the Title, it is appended to Paragraphs. -/
theorem parsePPTX_threshold_not_in_characters :
    (textOf 30 '€').length = 30 ∧ (textOf 30 '€').utf8ByteSize = 90 ∧
    (parsePPTX (worldOf euroDeck {}) "deck.pptx").1 =
      ([{ SlideNumber := 1, Title := "", Paragraphs := [textOf 30 '€'] }], none) := by
  decide

theorem slideTexts_length (shapes : List Shape) :
    (slideTexts shapes).length = (shapes.filter (fun s => s.hasText)).length := by
  simp [slideTexts]

theorem texts_count (texts : List String) :
    ((texts.take (titleIndex texts)).filter (fun t => decide (50 ≤ t.utf8ByteSize))
          ++ texts.drop (titleIndex texts + 1)).length
        + (if (texts[titleIndex texts]?).getD "" = "" then 0 else 1) ≤ texts.length ∧
      ((∀ t ∈ texts, t ≠ "") →
        ((texts.take (titleIndex texts)).filter (fun t => decide (50 ≤ t.utf8ByteSize))
            ++ texts.drop (titleIndex texts + 1)).length
          + (if (texts[titleIndex texts]?).getD "" = "" then 0 else 1) = texts.length) := by
  induction texts with
  | nil => simp [titleIndex]
  | cons t rest ih =>
    simp only [titleIndex] at ih ⊢
    cases hT : takesTitle t
    · simp only [List.findIdx_cons, hT, cond_false, List.take_succ_cons, List.drop_succ_cons,
        List.getElem?_cons_succ, List.filter_cons, List.length_cons, List.mem_cons]
      refine ⟨?_, ?_⟩
      · have := ih.1
        split
        · simp only [List.cons_append, List.length_cons]
          omega
        · omega
      · intro hall
        have h50 : 50 ≤ t.utf8ByteSize := by
          rcases (takesTitle_false_iff t).1 hT with h0 | h50
          · exact absurd h0 (hall t (Or.inl rfl))
          · exact h50
        have := ih.2 (fun u hu => hall u (Or.inr hu))
        simp only [h50, decide_True, if_true, List.cons_append, List.length_cons]
        omega
    · have hne : t ≠ "" := ((takesTitle_true_iff t).1 hT).1
      simp [List.findIdx_cons, hT, hne]

/-- C8, amended. For every slide the number of paragraphs plus one if the Title
is not empty is at most the number of text-bearing shapes; it is equal to that
number whenever no text-bearing shape yields the empty text. -/
theorem parsePPTX_text_count (w : World) (filePath : String)
    (ppt : Presentation) (h : w.openDoc filePath = (ppt, none))
    (j : Nat) (slide : Slide) (hj : ppt.slides[j]? = some slide) :
    ∃ rec, (parsePPTX w filePath).1.1[j]? = some rec ∧
      rec.Paragraphs.length + (if rec.Title = "" then 0 else 1) ≤
        (slide.shapes.filter (fun s => s.hasText)).length ∧
      ((∀ s ∈ slide.shapes, s.hasText = true → s.text.1 ≠ "") →
        rec.Paragraphs.length + (if rec.Title = "" then 0 else 1) =
          (slide.shapes.filter (fun s => s.hasText)).length) := by
  have hloop := shapesLoop_empty slide.shapes
  have hcount := texts_count (slideTexts slide.shapes)
  refine ⟨_, parsePPTX_get w filePath ppt h j slide hj, ?_, ?_⟩
  · rw [processSlide_snd]
    dsimp only
    rw [hloop.1, hloop.2, ← slideTexts_length]
    exact hcount.1
  · intro hall
    rw [processSlide_snd]
    dsimp only
    rw [hloop.1, hloop.2, ← slideTexts_length]
    apply hcount.2
    intro t ht
    simp only [slideTexts, List.mem_map, List.mem_filter] at ht
    rcases ht with ⟨s, ⟨hs, hst⟩, rfl⟩
    exact hall s hs hst

/-- The first slide of `deck`: three text-bearing shapes, none with an empty text. -/
theorem parsePPTX_text_count_witness :
    deckWorld.openDoc "deck.pptx" = (deck, none) ∧ deck.slides[0]? = some slideA ∧
    ∃ rec, (parsePPTX deckWorld "deck.pptx").1.1[0]? = some rec ∧
      rec.Paragraphs.length + (if rec.Title = "" then 0 else 1) ≤
        (slideA.shapes.filter (fun s => s.hasText)).length ∧
      ((∀ s ∈ slideA.shapes, s.hasText = true → s.text.1 ≠ "") →
        rec.Paragraphs.length + (if rec.Title = "" then 0 else 1) =
          (slideA.shapes.filter (fun s => s.hasText)).length) :=
  ⟨rfl, rfl, parsePPTX_text_count deckWorld "deck.pptx" deck rfl 0 slideA rfl⟩

/-- C8 fails without any failed extraction. The only shape of the slide has text,
its extraction succeeds and yields the empty text: the record has no title and
no paragraph, 0 in all, for one text-bearing shape. -/
theorem text_count_below_shape_count :
    emptyTextDeck.slides = [{ shapes := [textShape ""], pictures := [] }] ∧
    (textShape "").hasText = true ∧ (textShape "").text.2 = none ∧
    (emptyTextDeck.slides.map (fun sl => (sl.shapes.filter (fun s => s.hasText)).length)) = [1] ∧
    (parsePPTX (worldOf emptyTextDeck {}) "deck.pptx").1 =
      ([{ SlideNumber := 1, Title := "", Paragraphs := [] }], none) ∧
    ((parsePPTX (worldOf emptyTextDeck {}) "deck.pptx").1.1.map
      (fun r => r.Paragraphs.length + (if r.Title = "" then 0 else 1))) = [0] := by
  decide

theorem shapeStep_clearTextError (sd : SlideData) (s : Shape) :
    shapeStep sd (clearTextError s) = shapeStep sd s := rfl

theorem shapesLoop_clearTextError (shapes : List Shape) (sd : SlideData) :
    shapesLoop sd (shapes.map clearTextError) = shapesLoop sd shapes := by
  induction shapes generalizing sd with
  | nil => rfl
  | cons s rest ih =>
    rw [List.map_cons, shapesLoop_cons, shapesLoop_cons, shapeStep_clearTextError, ih]

/-- An empty text reached while the title is empty leaves the record as it is. -/
theorem shapeStep_empty_text (sd : SlideData) (s : Shape) (h0 : s.text.1 = "")
    (hT : sd.Title = "") : shapeStep sd s = sd := by
  cases sd
  simp_all [shapeStep, String.utf8ByteSize, String.utf8ByteSize.go]

/-- The paragraphs only grow and a title that is not empty stays. -/
theorem shapesLoop_keeps (shapes : List Shape) (sd : SlideData) :
    (∀ t ∈ sd.Paragraphs, t ∈ (shapesLoop sd shapes).Paragraphs) ∧
      (sd.Title ≠ "" → (shapesLoop sd shapes).Title = sd.Title) := by
  refine ⟨?_, ?_⟩
  · by_cases hT : sd.Title = ""
    · rw [shapesLoop_of_no_title shapes sd hT]
      intro t ht
      simp [ht]
    · rw [shapesLoop_of_title shapes sd hT]
      intro t ht
      simp [ht]
  · intro hT
    rw [shapesLoop_of_title shapes sd hT]

/-- C4, amended. The error of Text() is discarded: Title and Paragraphs are
those of the same shapes with the errors erased. A text-bearing shape is skipped
(the record is the one of the remaining shapes) when its text is empty and no
title is assigned when it is reached; in every other case its text is the Title
or one of the Paragraphs, whether its extraction failed or not. -/
theorem parsePPTX_text_error_discarded (w : World) (filePath : String)
    (ppt : Presentation) (h : w.openDoc filePath = (ppt, none))
    (j : Nat) (slide : Slide) (hj : ppt.slides[j]? = some slide)
    (pre : List Shape) (s : Shape) (post : List Shape)
    (hshapes : slide.shapes = pre ++ s :: post) (hs : s.hasText = true) :
    ∃ rec, (parsePPTX w filePath).1.1[j]? = some rec ∧
      rec.Title = (shapesLoop {} (slide.shapes.map clearTextError)).Title ∧
      rec.Paragraphs = (shapesLoop {} (slide.shapes.map clearTextError)).Paragraphs ∧
      (s.text.1 = "" ∧ (shapesLoop {} pre).Title = "" →
        rec.Title = (shapesLoop {} (pre ++ post)).Title ∧
        rec.Paragraphs = (shapesLoop {} (pre ++ post)).Paragraphs) ∧
      (¬ (s.text.1 = "" ∧ (shapesLoop {} pre).Title = "") →
        rec.Title = s.text.1 ∨ s.text.1 ∈ rec.Paragraphs) := by
  refine ⟨_, parsePPTX_get w filePath ppt h j slide hj, ?_, ?_, ?_, ?_⟩
  · rw [processSlide_snd, shapesLoop_clearTextError]
  · rw [processSlide_snd, shapesLoop_clearTextError]
  · rintro ⟨h0, hT⟩
    have hstep := shapeStep_empty_text (shapesLoop {} pre) s h0 hT
    rw [processSlide_snd]
    dsimp only
    rw [hshapes, shapesLoop_append, shapesLoop_cons, hstep, ← shapesLoop_append]
    exact ⟨rfl, rfl⟩
  · intro hnot
    rw [processSlide_snd]
    dsimp only
    rw [hshapes, shapesLoop_append, shapesLoop_cons]
    by_cases hcond : (shapesLoop {} pre).Title = "" ∧ s.text.1.utf8ByteSize < 50
    · have hne : s.text.1 ≠ "" := fun h0 => hnot ⟨h0, hcond.1⟩
      have hstep : shapeStep (shapesLoop {} pre) s =
          { shapesLoop {} pre with Title := s.text.1 } := by
        simp [shapeStep, hs, hcond.1, hcond.2]
      left
      rw [hstep]
      exact (shapesLoop_keeps post _).2 hne
    · have hstep : shapeStep (shapesLoop {} pre) s =
          { shapesLoop {} pre with
            Paragraphs := (shapesLoop {} pre).Paragraphs ++ [s.text.1] } := by
        simp only [shapeStep, hs, if_true, hcond, if_false]
      right
      rw [hstep]
      exact (shapesLoop_keeps post _).1 _ (by simp)

/-- The slide of `failedTextDeck`: a short text, then a shape whose extraction fails. -/
theorem parsePPTX_text_error_discarded_witness :
    (worldOf failedTextDeck {}).openDoc "deck.pptx" = (failedTextDeck, none) ∧
    failedTextDeck.slides[0]? =
      some { shapes := [textShape "Intro", failedTextShape], pictures := [] } ∧
    ([textShape "Intro", failedTextShape] : List Shape) =
      [textShape "Intro"] ++ failedTextShape :: [] ∧
    failedTextShape.hasText = true ∧
    ∃ rec, (parsePPTX (worldOf failedTextDeck {}) "deck.pptx").1.1[0]? = some rec ∧
      rec.Title = (shapesLoop {}
        ([textShape "Intro", failedTextShape].map clearTextError)).Title ∧
      rec.Paragraphs = (shapesLoop {}
        ([textShape "Intro", failedTextShape].map clearTextError)).Paragraphs ∧
      (failedTextShape.text.1 = "" ∧ (shapesLoop {} [textShape "Intro"]).Title = "" →
        rec.Title = (shapesLoop {} ([textShape "Intro"] ++ [])).Title ∧
        rec.Paragraphs = (shapesLoop {} ([textShape "Intro"] ++ [])).Paragraphs) ∧
      (¬ (failedTextShape.text.1 = "" ∧ (shapesLoop {} [textShape "Intro"]).Title = "") →
        rec.Title = failedTextShape.text.1 ∨ failedTextShape.text.1 ∈ rec.Paragraphs) :=
  ⟨rfl, rfl, rfl, rfl,
    parsePPTX_text_error_discarded (worldOf failedTextDeck {}) "deck.pptx" failedTextDeck rfl 0
      { shapes := [textShape "Intro", failedTextShape], pictures := [] } rfl
      [textShape "Intro"] failedTextShape [] rfl rfl⟩

/-- C4 fails for a shape reached after the title. The second shape has text and
its extraction returns an error with the empty string: the code appends that
string to Paragraphs, while the remaining shape alone gives no paragraph. -/
theorem parsePPTX_failed_text_not_skipped :
    failedTextShape.hasText = true ∧ failedTextShape.text.2 ≠ none ∧
    (parsePPTX (worldOf failedTextDeck {}) "deck.pptx").1 =
      ([{ SlideNumber := 1, Title := "Intro", Paragraphs := [""] }], none) ∧
    (parsePPTX (worldOf failedTextDeckRest {}) "deck.pptx").1 =
      ([{ SlideNumber := 1, Title := "Intro", Paragraphs := [] }], none) := by
  decide

/-! ## Pictures of a slide -/

theorem encodeImageToBase64_eq (fs : FS) (name : String) :
    (encodeImageToBase64 fs name).2 = (readFile fs name).2 ∧
      ((readFile fs name).2 = none →
        (encodeImageToBase64 fs name).1 = String.mk (base64Encode (readFile fs name).1)) := by
  unfold encodeImageToBase64
  rcases readFile fs name with ⟨bytes, _ | e⟩ <;> simp

/-- A file read without error right after it was written without error has the
written content. -/
theorem readFile_writeFile (fs : FS) (name : String) (data : List Byte)
    (hw : (writeFile fs name data).2 = none)
    (hr : (readFile (writeFile fs name data).1 name).2 = none) :
    (readFile (writeFile fs name data).1 name).1 = data := by
  unfold writeFile at hw hr ⊢
  by_cases hd : name ∈ fs.writeDenied
  · simp [hd] at hw
  · simp only [hd, if_false] at hr ⊢
    unfold readFile at hr ⊢
    by_cases hrd : name ∈ fs.readDenied
    · simp [hrd] at hr
    · simp [hrd, List.lookup]

theorem fsBeforePicture_cons (fs : FS) (p : Picture) (pre : List Picture) :
    fsBeforePicture fs (p :: pre) = fsBeforePicture (fsAfterWrite fs p) pre := by
  unfold fsBeforePicture
  rw [picturesLoop_cons]
  have h1 := pictureStep_fst (fs, {}) p
  rcases hstep : pictureStep (fs, {}) p with ⟨f1, d1⟩
  rw [hstep] at h1
  dsimp only at h1
  subst h1
  exact picturesLoop_fst_indep _ _ _ _

/-- The images of one more picture: those before it, its own record when the
read back succeeds, those of the pictures after it. -/
theorem picturesLoop_cons_images (fs : FS) (p : Picture) (rest : List Picture) :
    (picturesLoop (fs, {}) (p :: rest)).2.Images =
      (if (readFile (fsAfterWrite fs p) (filepathBase p.fileName)).2 = none then
          [imageOf p (readFile (fsAfterWrite fs p) (filepathBase p.fileName)).1]
        else [])
        ++ (picturesLoop (fsAfterWrite fs p, {}) rest).2.Images := by
  rw [picturesLoop_cons]
  have h1 := pictureStep_fst (fs, {}) p
  have h2 := pictureStep_snd (fs, {}) p
  rcases hstep : pictureStep (fs, {}) p with ⟨f1, d1⟩
  rw [hstep] at h1 h2
  dsimp only at h1 h2
  subst h1
  rw [picturesLoop_images, h2]
  unfold fsAfterWrite imageOf
  split <;> simp

theorem picturesLoop_split_images (pre : List Picture) (fs : FS) (pic : Picture)
    (post : List Picture) :
    (picturesLoop (fs, {}) (pre ++ pic :: post)).2.Images =
      (picturesLoop (fs, {}) pre).2.Images
        ++ (if (readFile (fsAfterWrite (fsBeforePicture fs pre) pic)
              (filepathBase pic.fileName)).2 = none then
            [imageOf pic (readFile (fsAfterWrite (fsBeforePicture fs pre) pic)
              (filepathBase pic.fileName)).1]
          else [])
        ++ (picturesLoop (fsAfterWrite (fsBeforePicture fs pre) pic, {}) post).2.Images := by
  induction pre generalizing fs with
  | nil =>
    rw [List.nil_append, picturesLoop_cons_images]
    simp [fsBeforePicture, picturesLoop_nil]
  | cons p rest ih =>
    rw [List.cons_append, picturesLoop_cons_images, ih, picturesLoop_cons_images,
      fsBeforePicture_cons]
    simp only [List.append_assoc]

theorem picturesLoop_all_succeed (pics : List Picture) (fs : FS)
    (hall : allPicturesSucceed fs pics = true) :
    (picturesLoop (fs, {}) pics).2.Images = pics.map (fun pic => imageOf pic pic.data.1) := by
  induction pics generalizing fs with
  | nil => rfl
  | cons p rest ih =>
    simp only [allPicturesSucceed, Bool.and_eq_true, Option.isNone_iff_eq_none] at hall
    obtain ⟨⟨⟨_, hw⟩, he⟩, hrest⟩ := hall
    have hr : (readFile (fsAfterWrite fs p) (filepathBase p.fileName)).2 = none := by
      rw [← (encodeImageToBase64_eq _ _).1]
      exact he
    have hbytes := readFile_writeFile fs (filepathBase p.fileName) p.data.1 hw hr
    have hrest2 : allPicturesSucceed (fsAfterWrite fs p) rest = true := hrest
    have hbytes2 : (readFile (fsAfterWrite fs p) (filepathBase p.fileName)).1 = p.data.1 :=
      hbytes
    rw [picturesLoop_cons_images, if_pos hr, List.map_cons, ih _ hrest2, hbytes2]
    rfl

theorem picturesLoop_mem_images (pics : List Picture) (fs : FS) (img : ImageData)
    (himg : img ∈ (picturesLoop (fs, {}) pics).2.Images) :
    ∃ pre pic post, pics = pre ++ pic :: post ∧
      (readFile (fsAfterWrite (fsBeforePicture fs pre) pic) (filepathBase pic.fileName)).2
        = none ∧
      img = imageOf pic
        (readFile (fsAfterWrite (fsBeforePicture fs pre) pic) (filepathBase pic.fileName)).1 := by
  induction pics generalizing fs with
  | nil => simp [picturesLoop_nil] at himg
  | cons p rest ih =>
    rw [picturesLoop_cons_images, List.mem_append] at himg
    rcases himg with hhere | hlater
    · refine ⟨[], p, rest, rfl, ?_⟩
      have hfs : fsBeforePicture fs [] = fs := rfl
      rw [hfs]
      split at hhere
      · rename_i hok
        exact ⟨hok, by simpa using hhere⟩
      · simp at hhere
    · obtain ⟨pre, pic, post, hsplit, hok, himg⟩ := ih _ hlater
      refine ⟨p :: pre, pic, post, by rw [hsplit]; rfl, ?_⟩
      rw [fsBeforePicture_cons]
      exact ⟨hok, himg⟩

/-! ## Base name of a file name -/

theorem string_ne_empty_iff (s : String) : s ≠ "" ↔ s.toList ≠ [] := by
  rcases s with ⟨cs⟩
  constructor
  · intro h hcs
    apply h
    simp only [String.toList] at hcs
    subst hcs
    rfl
  · intro h hs
    apply h
    have := congrArg String.toList hs
    simpa using this

theorem dropWhile_append_all {α : Type} (p : α → Bool) (xs ys : List α)
    (h : ∀ x ∈ xs, p x = true) : (xs ++ ys).dropWhile p = ys.dropWhile p := by
  induction xs with
  | nil => rfl
  | cons x rest ih =>
    have hx := h x (List.mem_cons_self _ _)
    rw [List.cons_append, List.dropWhile_cons_of_pos hx]
    exact ih (fun y hy => h y (List.mem_cons_of_mem _ hy))

theorem takeWhile_append_all {α : Type} (p : α → Bool) (xs ys : List α)
    (h : ∀ x ∈ xs, p x = true) (hy : ∀ y, ys.head? = some y → p y = false) :
    (xs ++ ys).takeWhile p = xs := by
  induction xs with
  | nil =>
    cases ys with
    | nil => rfl
    | cons y rest =>
      have := hy y rfl
      simp [List.takeWhile_cons, this]
  | cons x rest ih =>
    have hx := h x (List.mem_cons_self _ _)
    rw [List.cons_append, List.takeWhile_cons_of_pos hx]
    rw [ih (fun y hy => h y (List.mem_cons_of_mem _ hy))]

theorem dropWhile_of_head_neg {α : Type} (p : α → Bool) (xs : List α)
    (h : ∀ x, xs.head? = some x → p x = false) : xs.dropWhile p = xs := by
  cases xs with
  | nil => rfl
  | cons x rest =>
    have := h x rfl
    simp [List.dropWhile_cons, this]

/-- The value of `filepathBase` on a path that is neither empty nor made of
separators only, given as directory part, name and trailing separators. -/
theorem filepathBase_of_parts (path : String) (dir name trail : List Char)
    (hpath : path.toList = dir ++ name ++ trail) (hname : name ≠ [])
    (hslash : '/' ∉ name) (htrail : ∀ c ∈ trail, c = '/')
    (hdir : dir = [] ∨ dir.getLast? = some '/') :
    filepathBase path = String.mk name := by
  have hne : path ≠ "" := by
    rw [string_ne_empty_iff, hpath]
    intro h
    simp only [List.append_eq_nil] at h
    exact hname h.1.2
  have hrev : path.toList.reverse = trail.reverse ++ (name.reverse ++ dir.reverse) := by
    rw [hpath]
    simp
  have h1 : (path.toList.reverse).dropWhile (fun c => decide (c = '/'))
      = name.reverse ++ dir.reverse := by
    rw [hrev, dropWhile_append_all _ _ _ (by
      intro c hc
      simpa using htrail c (List.mem_reverse.1 hc))]
    apply dropWhile_of_head_neg
    intro c hc
    have hmem : c ∈ name := by
      cases hn : name.reverse with
      | nil => exact absurd (List.reverse_eq_nil_iff.1 hn) hname
      | cons d rest =>
        rw [hn] at hc
        simp at hc
        subst hc
        have : d ∈ name.reverse := by
          rw [hn]
          exact List.mem_cons_self _ _
        exact List.mem_reverse.1 this
    have : c ≠ '/' := fun hc2 => hslash (hc2 ▸ hmem)
    simpa using this
  have h2 : (name.reverse ++ dir.reverse).takeWhile (fun c => decide (c ≠ '/'))
      = name.reverse := by
    apply takeWhile_append_all
    · intro c hc
      have hmem : c ∈ name := List.mem_reverse.1 hc
      have : c ≠ '/' := fun hc2 => hslash (hc2 ▸ hmem)
      simpa using this
    · intro c hc
      rw [List.head?_reverse] at hc
      rcases hdir with hd | hd
      · rw [hd] at hc
        simp at hc
      · rw [hd] at hc
        cases hc
        simp
  unfold filepathBase
  rw [if_neg hne]
  dsimp only
  rw [h1, h2, List.reverse_reverse, if_neg hname]

theorem filepathBase_of_separators (path : String) (hne : path ≠ "")
    (hall : ∀ c ∈ path.toList, c = '/') : filepathBase path = "/" := by
  have h1 : (path.toList.reverse).dropWhile (fun c => decide (c = '/')) = [] := by
    rw [List.dropWhile_eq_nil_iff]
    intro c hc
    simpa using hall c (List.mem_reverse.1 hc)
  unfold filepathBase
  rw [if_neg hne]
  dsimp only
  rw [h1]
  rfl

/-- The function `filepathBase` gives a base name of the path. -/
theorem isBaseName_filepathBase (path : String) : IsBaseName path (filepathBase path) := by
  by_cases hne : path = ""
  · left
    exact ⟨hne, by rw [hne]; rfl⟩
  · by_cases hall : ∀ c ∈ path.toList, c = '/'
    · right
      left
      exact ⟨hne, hall, filepathBase_of_separators path hne hall⟩
    · right
      right
      have hsplit1 := List.takeWhile_append_dropWhile (fun c => decide (c = '/'))
        path.toList.reverse
      have hsplit2 := List.takeWhile_append_dropWhile (fun c => decide (c ≠ '/'))
        ((path.toList.reverse).dropWhile (fun c => decide (c = '/')))
      have htrail : ∀ c ∈ ((path.toList.reverse).takeWhile (fun c => decide (c = '/'))).reverse,
          c = '/' := by
        intro c hc
        simpa using List.mem_takeWhile_imp (List.mem_reverse.1 hc)
      have hslash : '/' ∉ ((((path.toList.reverse).dropWhile (fun c => decide (c = '/'))).takeWhile
          (fun c => decide (c ≠ '/'))).reverse) := by
        intro hc
        have := List.mem_takeWhile_imp (List.mem_reverse.1 hc)
        simp at this
      have hstripped : (path.toList.reverse).dropWhile (fun c => decide (c = '/')) ≠ [] := by
        intro hnil
        apply hall
        intro c hc
        have := (List.dropWhile_eq_nil_iff.1 hnil) c (List.mem_reverse.2 hc)
        simpa using this
      have hname : ((((path.toList.reverse).dropWhile (fun c => decide (c = '/'))).takeWhile
          (fun c => decide (c ≠ '/'))).reverse) ≠ [] := by
        intro hnil
        have hnil2 := List.reverse_eq_nil_iff.1 hnil
        have hhead := List.head?_dropWhile_not (fun c => decide (c = '/')) path.toList.reverse
        cases hs : (path.toList.reverse).dropWhile (fun c => decide (c = '/')) with
        | nil => exact hstripped hs
        | cons d rest =>
          rw [hs] at hhead hnil2
          simp only [List.head?_cons, decide_eq_false_iff_not] at hhead
          simp [List.takeWhile_cons, hhead] at hnil2
      have hdir : (((path.toList.reverse).dropWhile (fun c => decide (c = '/'))).dropWhile
            (fun c => decide (c ≠ '/'))).reverse = [] ∨
          ((((path.toList.reverse).dropWhile (fun c => decide (c = '/'))).dropWhile
            (fun c => decide (c ≠ '/'))).reverse).getLast? = some '/' := by
        have hhead := List.head?_dropWhile_not (fun c => decide (c ≠ '/'))
          ((path.toList.reverse).dropWhile (fun c => decide (c = '/')))
        rw [List.getLast?_reverse]
        cases hd : ((path.toList.reverse).dropWhile (fun c => decide (c = '/'))).dropWhile
            (fun c => decide (c ≠ '/')) with
        | nil => left; rfl
        | cons d rest =>
          right
          rw [hd] at hhead
          simp only [List.head?_cons, ne_eq, decide_not, Bool.not_eq_false',
            decide_eq_true_eq] at hhead
          rw [hhead]
          rfl
      have hpath : path.toList =
          (((path.toList.reverse).dropWhile (fun c => decide (c = '/'))).dropWhile
            (fun c => decide (c ≠ '/'))).reverse
          ++ ((((path.toList.reverse).dropWhile (fun c => decide (c = '/'))).takeWhile
            (fun c => decide (c ≠ '/'))).reverse)
          ++ ((path.toList.reverse).takeWhile (fun c => decide (c = '/'))).reverse := by
        rw [← List.reverse_append, hsplit2, ← List.reverse_append, hsplit1,
          List.reverse_reverse]
      have hval := filepathBase_of_parts path _ _ _ hpath hname hslash htrail hdir
      rw [hval]
      refine ⟨?_, hslash, _, _, hpath, htrail, hdir⟩
      rw [string_ne_empty_iff]
      exact hname

/-- A path has one base name only, the value of `filepathBase`. -/
theorem isBaseName_unique (path base : String) (h : IsBaseName path base) :
    base = filepathBase path := by
  rcases h with ⟨hp, hb⟩ | ⟨hne, hall, hb⟩ | ⟨hb, hslash, dir, trail, hpath, htrail, hdir⟩
  · rw [hp, hb]
    rfl
  · rw [hb, filepathBase_of_separators path hne hall]
  · rw [filepathBase_of_parts path dir base.toList trail hpath
      ((string_ne_empty_iff base).1 hb) hslash htrail hdir]
    rfl

/-- C9. When every picture of a slide extracts, is written and is read back
without error, Images has one record per picture, in the order of the pictures:
the Src of the record at position k is the base name of the file name of picture
k (the directory part stripped: the one string that is a base name of it),
Base64 is the standard encoding of its raw bytes and decodes to them, Alt, Width
and Height are zero; the shapes of the slide have no influence on Images. -/
theorem parsePPTX_images_of_successful_pictures (w : World) (filePath : String)
    (ppt : Presentation) (h : w.openDoc filePath = (ppt, none))
    (j : Nat) (slide : Slide) (hj : ppt.slides[j]? = some slide)
    (hall : allPicturesSucceed (fsBeforeSlide w.fs ppt.slides j) slide.pictures = true) :
    ∃ rec, (parsePPTX w filePath).1.1[j]? = some rec ∧
      rec.Images = slide.pictures.map (fun pic =>
        { Src := filepathBase pic.fileName, Alt := "", Width := 0, Height := 0,
          Base64 := String.mk (base64Encode pic.data.1) }) ∧
      rec.Images.length = slide.pictures.length ∧
      (∀ (k : Nat) (pic : Picture), slide.pictures[k]? = some pic →
        ∃ img, rec.Images[k]? = some img ∧
          IsBaseName pic.fileName img.Src ∧
          (∀ b, IsBaseName pic.fileName b → b = img.Src) ∧
          img.Base64 = String.mk (base64Encode pic.data.1) ∧
          base64Decode img.Base64.toList = some pic.data.1 ∧
          img.Alt = "" ∧ img.Width = 0 ∧ img.Height = 0) ∧
      ∀ shapes : List Shape,
        (processSlide (fsBeforeSlide w.fs ppt.slides j) j
          { shapes := shapes, pictures := slide.pictures }).2.Images = rec.Images := by
  have himages : (processSlide (fsBeforeSlide w.fs ppt.slides j) j slide).2.Images =
      slide.pictures.map (fun pic => imageOf pic pic.data.1) := by
    rw [processSlide_snd]
    exact picturesLoop_all_succeed _ _ hall
  refine ⟨_, parsePPTX_get w filePath ppt h j slide hj, himages, ?_, ?_, ?_⟩
  · rw [himages, List.length_map]
  · intro k pic hk
    refine ⟨imageOf pic pic.data.1, ?_, isBaseName_filepathBase pic.fileName,
      fun b hb => isBaseName_unique pic.fileName b hb, rfl, base64Decode_encode _,
      rfl, rfl, rfl⟩
    rw [himages, List.getElem?_map, hk]
    rfl
  · intro shapes
    rw [processSlide_snd, processSlide_snd]

/-- The first slide of `deck` in an empty storage: its picture
"ppt/media/image1.png" with the bytes 77, 97, 110 gives the record with Src
"image1.png" and Base64 "TWFu". -/
theorem parsePPTX_images_of_successful_pictures_witness :
    deckWorld.openDoc "deck.pptx" = (deck, none) ∧ deck.slides[0]? = some slideA ∧
    allPicturesSucceed (fsBeforeSlide deckWorld.fs deck.slides 0) slideA.pictures = true ∧
    slideA.pictures.map (fun pic => pic.fileName) = ["ppt/media/image1.png"] ∧
    filepathBase "ppt/media/image1.png" = "image1.png" ∧
    IsBaseName "ppt/media/image1.png" "image1.png" ∧
    ((parsePPTX deckWorld "deck.pptx").1.1[0]?).map (fun r => r.Images) =
      some [{ Src := "image1.png", Alt := "", Width := 0, Height := 0, Base64 := "TWFu" }] ∧
    ∃ rec, (parsePPTX deckWorld "deck.pptx").1.1[0]? = some rec ∧
      rec.Images = slideA.pictures.map (fun pic =>
        { Src := filepathBase pic.fileName, Alt := "", Width := 0, Height := 0,
          Base64 := String.mk (base64Encode pic.data.1) }) ∧
      rec.Images.length = slideA.pictures.length ∧
      (∀ (k : Nat) (pic : Picture), slideA.pictures[k]? = some pic →
        ∃ img, rec.Images[k]? = some img ∧
          IsBaseName pic.fileName img.Src ∧
          (∀ b, IsBaseName pic.fileName b → b = img.Src) ∧
          img.Base64 = String.mk (base64Encode pic.data.1) ∧
          base64Decode img.Base64.toList = some pic.data.1 ∧
          img.Alt = "" ∧ img.Width = 0 ∧ img.Height = 0) ∧
      ∀ shapes : List Shape,
        (processSlide (fsBeforeSlide deckWorld.fs deck.slides 0) 0
          { shapes := shapes, pictures := slideA.pictures }).2.Images = rec.Images :=
  ⟨rfl, rfl, by decide, by decide, by decide,
    Or.inr (Or.inr ⟨by decide, by decide, "ppt/media/".toList, [], by decide, by decide,
      Or.inr (by decide)⟩),
    by decide,
    parsePPTX_images_of_successful_pictures deckWorld "deck.pptx" deck rfl 0 slideA rfl
      (by decide)⟩

/-- C3, amended. A picture adds no record exactly when reading the file back
fails; an error of Data() or of the write is discarded. The Images of a slide
are the records of the pictures before a picture, then the record of that
picture built from the bytes read back if the read back succeeds and nothing
otherwise, then the records of the pictures after it. -/
theorem parsePPTX_picture_skipped_iff_read_fails (w : World) (filePath : String)
    (ppt : Presentation) (h : w.openDoc filePath = (ppt, none))
    (j : Nat) (slide : Slide) (hj : ppt.slides[j]? = some slide)
    (pre : List Picture) (pic : Picture) (post : List Picture)
    (hpics : slide.pictures = pre ++ pic :: post) :
    ∃ rec, (parsePPTX w filePath).1.1[j]? = some rec ∧
      rec.Images =
        (picturesLoop (fsBeforeSlide w.fs ppt.slides j, {}) pre).2.Images
          ++ (if (readFile
                (fsAfterWrite (fsBeforePicture (fsBeforeSlide w.fs ppt.slides j) pre) pic)
                (filepathBase pic.fileName)).2 = none then
              [{ Src := filepathBase pic.fileName,
                 Base64 := String.mk (base64Encode (readFile
                   (fsAfterWrite (fsBeforePicture (fsBeforeSlide w.fs ppt.slides j) pre) pic)
                   (filepathBase pic.fileName)).1) }]
            else [])
          ++ (picturesLoop
              (fsAfterWrite (fsBeforePicture (fsBeforeSlide w.fs ppt.slides j) pre) pic, {})
              post).2.Images := by
  refine ⟨_, parsePPTX_get w filePath ppt h j slide hj, ?_⟩
  rw [processSlide_snd]
  dsimp only
  rw [hpics, picturesLoop_split_images]
  rfl

/-- The second slide of `deck`, split at its first picture, whose `Data()` fails. -/
theorem parsePPTX_picture_skipped_iff_read_fails_witness :
    deckWorld.openDoc "deck.pptx" = (deck, none) ∧ deck.slides[1]? = some slideB ∧
    slideB.pictures =
      [] ++ { data := ([], some "no data"), fileName := "ppt/media/image2.png" }
        :: [{ data := ([toByte 77], none), fileName := "image3.png" }] ∧
    ∃ rec, (parsePPTX deckWorld "deck.pptx").1.1[1]? = some rec ∧
      rec.Images =
        (picturesLoop (fsBeforeSlide deckWorld.fs deck.slides 1, {}) []).2.Images
          ++ (if (readFile
                (fsAfterWrite (fsBeforePicture (fsBeforeSlide deckWorld.fs deck.slides 1) [])
                  { data := ([], some "no data"), fileName := "ppt/media/image2.png" })
                (filepathBase "ppt/media/image2.png")).2 = none then
              [{ Src := filepathBase "ppt/media/image2.png",
                 Base64 := String.mk (base64Encode (readFile
                   (fsAfterWrite (fsBeforePicture (fsBeforeSlide deckWorld.fs deck.slides 1) [])
                     { data := ([], some "no data"), fileName := "ppt/media/image2.png" })
                   (filepathBase "ppt/media/image2.png")).1) }]
            else [])
          ++ (picturesLoop
              (fsAfterWrite (fsBeforePicture (fsBeforeSlide deckWorld.fs deck.slides 1) [])
                { data := ([], some "no data"), fileName := "ppt/media/image2.png" }, {})
              [{ data := ([toByte 77], none), fileName := "image3.png" }]).2.Images :=
  ⟨rfl, rfl, rfl,
    parsePPTX_picture_skipped_iff_read_fails deckWorld "deck.pptx" deck rfl 1 slideB rfl []
      { data := ([], some "no data"), fileName := "ppt/media/image2.png" }
      [{ data := ([toByte 77], none), fileName := "image3.png" }] rfl⟩

/-- C3 fails for a failure of Data() and for a failure of the write. The first
picture of the second slide of `deck` fails to give its bytes and still gets a
record; the write of `stalePicture` fails in `staleFS` and the picture still
gets a record, built from the file that was already there. -/
theorem parsePPTX_failed_picture_still_recorded :
    deck.slides[1]? = some slideB ∧
    (slideB.pictures[0]?).map (fun p => p.data.2) = some (some "no data") ∧
    ((parsePPTX deckWorld "deck.pptx").1.1[1]?).map (fun r => r.Images) =
      some [{ Src := "image2.png", Base64 := "" }, { Src := "image3.png", Base64 := "TQ==" }] ∧
    (writeFile staleFS (filepathBase stalePicture.fileName) stalePicture.data.1).2 ≠ none ∧
    (parsePPTX (worldOf staleDeck staleFS) "deck.pptx").1 =
      ([{ SlideNumber := 1, Images := [{ Src := "image1.png", Base64 := "AQ==" }] }], none) := by
  decide

/-- C5, amended. Every image record of the result comes from one picture of one
slide; its Src is the base name of the file name of the picture; reading the
file Src back right after the write attempt succeeded and decoding Base64 yields
exactly the bytes read; they are the raw bytes of the picture whenever the write
succeeded. -/
theorem parsePPTX_base64_decodes (w : World) (filePath : String)
    (ppt : Presentation) (h : w.openDoc filePath = (ppt, none))
    (rec : SlideData) (hrec : rec ∈ (parsePPTX w filePath).1.1)
    (img : ImageData) (himg : img ∈ rec.Images) :
    ∃ (j : Nat) (slide : Slide) (pre : List Picture) (pic : Picture) (post : List Picture),
      ppt.slides[j]? = some slide ∧ (parsePPTX w filePath).1.1[j]? = some rec ∧
      slide.pictures = pre ++ pic :: post ∧
      img.Src = filepathBase pic.fileName ∧
      (readFile (fsAfterWrite (fsBeforePicture (fsBeforeSlide w.fs ppt.slides j) pre) pic)
        img.Src).2 = none ∧
      base64Decode img.Base64.toList =
        some (readFile
          (fsAfterWrite (fsBeforePicture (fsBeforeSlide w.fs ppt.slides j) pre) pic)
          img.Src).1 ∧
      ((writeFile (fsBeforePicture (fsBeforeSlide w.fs ppt.slides j) pre)
          (filepathBase pic.fileName) pic.data.1).2 = none →
        base64Decode img.Base64.toList = some pic.data.1) := by
  obtain ⟨j, hjrec⟩ := List.mem_iff_getElem?.1 hrec
  have hlen : (parsePPTX w filePath).1.1.length = ppt.slides.length := by
    rw [parsePPTX_of_open w filePath ppt h]
    exact slidesLoop_length _ _ _
  have hjlt : j < ppt.slides.length := by
    rw [← hlen]
    by_contra hge
    rw [List.getElem?_eq_none (by omega)] at hjrec
    cases hjrec
  have hslide : ppt.slides[j]? = some (ppt.slides[j]) := List.getElem?_eq_getElem hjlt
  have hget := parsePPTX_get w filePath ppt h j _ hslide
  rw [hjrec, Option.some.injEq] at hget
  have himg2 : img ∈ (picturesLoop (fsBeforeSlide w.fs ppt.slides j, {})
      (ppt.slides[j]).pictures).2.Images := by
    rw [hget, processSlide_snd] at himg
    exact himg
  obtain ⟨pre, pic, post, hsplit, hok, hval⟩ := picturesLoop_mem_images _ _ _ himg2
  have hsrc : img.Src = filepathBase pic.fileName := by
    rw [hval]
    rfl
  have hdec : base64Decode img.Base64.toList =
      some (readFile (fsAfterWrite (fsBeforePicture (fsBeforeSlide w.fs ppt.slides j) pre) pic)
        (filepathBase pic.fileName)).1 := by
    rw [hval]
    exact base64Decode_encode _
  refine ⟨j, _, pre, pic, post, hslide, hjrec, hsplit, hsrc, ?_, ?_, ?_⟩
  · rw [hsrc]
    exact hok
  · rw [hsrc]
    exact hdec
  · intro hw
    rw [hdec]
    exact congrArg some (readFile_writeFile _ _ _ hw hok)

/-- The image record of the first slide of `deck`: "TWFu" decodes to the bytes 77, 97, 110. -/
theorem parsePPTX_base64_decodes_witness :
    deckWorld.openDoc "deck.pptx" = (deck, none) ∧
    (processSlide {} 0 slideA).2 ∈ (parsePPTX deckWorld "deck.pptx").1.1 ∧
    ({ Src := "image1.png", Base64 := "TWFu" } : ImageData) ∈
      (processSlide {} 0 slideA).2.Images ∧
    ∃ (j : Nat) (slide : Slide) (pre : List Picture) (pic : Picture) (post : List Picture),
      deck.slides[j]? = some slide ∧
      (parsePPTX deckWorld "deck.pptx").1.1[j]? = some (processSlide {} 0 slideA).2 ∧
      slide.pictures = pre ++ pic :: post ∧
      ({ Src := "image1.png", Base64 := "TWFu" } : ImageData).Src =
        filepathBase pic.fileName ∧
      (readFile (fsAfterWrite (fsBeforePicture (fsBeforeSlide deckWorld.fs deck.slides j) pre) pic)
        ({ Src := "image1.png", Base64 := "TWFu" } : ImageData).Src).2 = none ∧
      base64Decode ({ Src := "image1.png", Base64 := "TWFu" } : ImageData).Base64.toList =
        some (readFile
          (fsAfterWrite (fsBeforePicture (fsBeforeSlide deckWorld.fs deck.slides j) pre) pic)
          ({ Src := "image1.png", Base64 := "TWFu" } : ImageData).Src).1 ∧
      ((writeFile (fsBeforePicture (fsBeforeSlide deckWorld.fs deck.slides j) pre)
          (filepathBase pic.fileName) pic.data.1).2 = none →
        base64Decode ({ Src := "image1.png", Base64 := "TWFu" } : ImageData).Base64.toList =
          some pic.data.1) :=
  ⟨rfl, by decide, by decide,
    parsePPTX_base64_decodes deckWorld "deck.pptx" deck rfl (processSlide {} 0 slideA).2
      (by decide) { Src := "image1.png", Base64 := "TWFu" } (by decide)⟩

/-- C5 fails when the write fails and an older file can be read. The storage
holds `image1.png` with the byte 1 and refuses to overwrite it; the picture has
the byte 2. Nothing is written, the record is built from the old file, and its
Base64 decodes to the byte 1, not to the raw byte of the picture. -/
theorem parsePPTX_base64_of_stale_file :
    stalePicture.data = ([toByte 2], none) ∧
    (writeFile staleFS (filepathBase stalePicture.fileName) stalePicture.data.1).2 ≠ none ∧
    (parsePPTX (worldOf staleDeck staleFS) "deck.pptx").2 = staleFS ∧
    ((parsePPTX (worldOf staleDeck staleFS) "deck.pptx").1.1.map (fun r => r.Images)) =
      [[{ Src := "image1.png", Base64 := "AQ==" }]] ∧
    base64Decode "AQ==".toList = some [toByte 1] ∧
    base64Decode "AQ==".toList ≠ some stalePicture.data.1 := by
  decide


end PptxParser
